import Mathlib

/-!
Verification of OER-Club/CS39AE_Fall25 (Streamlit classroom pages) against its
natural-language specification. Shallow embedding of the relevant source code:

* `src/streamlit_CS/pages/5_Crypto.py` — the price Fetcher (`get_json`,
  `fetch_prices`) and the session price-history window (lines 96-102).
* `src/streamlit_CS/pages/STEM_Network2.py` / `STEM_Network3.py` — the Excel
  edge-list loader (`load_edges_from_excel_bytes`), the module-level filter
  block, `build_graph`, the directed ego-neighborhood expansion, and the
  measures/communities computation.

Machine floats only appear in this code as pandas NaN cells, which the code
immediately coerces to strings; they are modelled by the `Cell` inductive.
Timestamps are modelled as integers (minutes). Library calls into networkx
that the pages delegate to (betweenness, closeness, greedy modularity) are
parameters of the embedding; the branches the pages themselves implement are
embedded faithfully.
-/

namespace CS39AE

/-! ## 5_Crypto.py: the Fetcher -/

/-- A mock HTTP response for the CoinGecko simple-price endpoint.
`body` is the JSON object mapping coin id to a mapping currency → price
(prices as integers; the claims only use integral prices). `retryAfter` is
the optional `Retry-After` header. -/
structure Response where
  status : Nat
  retryAfter : Option Nat
  body : List (String × List (String × Int))
deriving Repr, DecidableEq

/-- `get_json` (5_Crypto.py lines 20-27): one `requests.get`; on status 429 it
raises an `HTTPError` whose message reports the `Retry-After` header (default
`"20"`); any other status ≥ 400 raises via `raise_for_status`; otherwise the
parsed JSON body is returned. Errors are the `.error` branch. -/
def get_json (resp : Response) : Except String (List (String × List (String × Int))) :=
  if resp.status = 429 then
    .error ("429 Too Many Requests. Retry after ~" ++ toString (resp.retryAfter.getD 20) ++ "s.")
  else if 400 ≤ resp.status then
    .error (toString resp.status ++ " Client/Server Error")
  else
    .ok resp.body

/-- The calling pattern of `get_json` in 5_Crypto.py over a queue of mock
responses: the function body contains a single `requests.get` and the module
contains no retry loop, so exactly one response is consumed (the head) and
the rest of the queue is never requested. The second component counts the
HTTP requests issued. An empty queue models a connection failure
(`requests.RequestException`). -/
def get_json_over (trace : List Response) :
    Except String (List (String × List (String × Int))) × Nat :=
  match trace with
  | [] => (.error "Network error: connection failed", 0)
  | r :: _ => (get_json r, 1)

/-- Extract the `usd` column of one transposed row, as `fetch_prices` reads
`DataFrame(d).T`: the price listed for `"usd"` (the claims only exercise
bodies where `usd` is present). -/
def usd_price (currencies : List (String × Int)) : Int :=
  (currencies.lookup "usd").getD 0

/-- `fetch_prices` (5_Crypto.py lines 68-71): call `get_json`, then
`pd.DataFrame(d).T.reset_index()` produces one row per coin id with its
`usd` price; modelled as the list of (coin, price) pairs in body order. -/
def fetch_prices (resp : Response) : Except String (List (String × Int)) :=
  (get_json resp).map (fun d => d.map (fun row => (row.1, usd_price row.2)))

/-! ## 5_Crypto.py: session price history (lines 96-102) -/

/-- One row of `st.session_state.price_history`. Time is in minutes. -/
structure PricePoint where
  time : Int
  coin : String
  price : Int
deriving Repr, DecidableEq

/-- Lines 96-102 of 5_Crypto.py: build `new_rows` (one row per coin of the
latest tick, all stamped with the current `timestamp`), concatenate onto the
stored history, compute `cutoff = timestamp - Timedelta(minutes=window_min)`,
and keep exactly the rows with `time >= cutoff`. -/
def update_price_history (history : List PricePoint) (tick : List (String × Int))
    (timestamp : Int) (window_min : Int) : List PricePoint :=
  let new_rows := tick.map (fun cp => { time := timestamp, coin := cp.1, price := cp.2 })
  let hist := history ++ new_rows
  let cutoff := timestamp - window_min
  hist.filter (fun r => decide (cutoff ≤ r.time))

/-! ## Fetcher theorems -/

/-- A mock 429 response with no `Retry-After` header. -/
def resp429 : Response := { status := 429, retryAfter := none, body := [] }

/-- The mocked success response of claim C8. -/
def mock_prices_response : Response :=
  { status := 200, retryAfter := none,
    body := [("bitcoin", [("usd", 50000)]), ("ethereum", [("usd", 3000)])] }

/-- C1 counterexample: with the API queued to answer 429, 429, success, the
code's fetch consults only the first response and fails with the 429
`HTTPError`, issuing exactly one request — it does not retry and does not
return the successful result. -/
theorem get_json_429_twice_then_success_fails :
    get_json_over [resp429, resp429, mock_prices_response] =
      (.error "429 Too Many Requests. Retry after ~20s.", 1) := by
  rfl

/-- C1 (amended): `get_json` performs no retries: a single request is issued,
a 429 response makes it raise immediately with the message naming the
`Retry-After` delay, and any queued later responses are never requested. -/
theorem get_json_no_retry (r : Response) (rest : List Response)
    (h : r.status = 429) :
    get_json r =
      .error ("429 Too Many Requests. Retry after ~" ++ toString (r.retryAfter.getD 20) ++ "s.")
    ∧ get_json_over (r :: rest) = (get_json r, 1) := by
  constructor
  · simp [get_json, h]
  · rfl

/-- Witness for `get_json_no_retry` at the concrete 429 response. -/
theorem get_json_no_retry_witness :
    resp429.status = 429 ∧
      (get_json resp429 =
        .error ("429 Too Many Requests. Retry after ~" ++ toString (resp429.retryAfter.getD 20) ++ "s.")
      ∧ get_json_over [resp429] = (get_json resp429, 1)) :=
  ⟨rfl, get_json_no_retry resp429 [] rfl⟩

/-- C8: on the instrument set bitcoin/ethereum with the mocked body
`bitcoin ↦ usd 50000, ethereum ↦ usd 3000`, the Fetcher returns exactly the
two rows (bitcoin, 50000) and (ethereum, 3000) and no error. -/
theorem fetch_prices_mocked_two_rows :
    fetch_prices mock_prices_response = .ok [("bitcoin", 50000), ("ethereum", 3000)] := by
  rfl

/-! ## Price-history theorems -/

/-- C2: after the append-then-truncate step, every remaining entry satisfies
`time ≥ timestamp - window`, and every stored entry strictly older than the
window is gone from the result. -/
theorem price_history_window_invariant (history : List PricePoint)
    (tick : List (String × Int)) (timestamp window : Int) :
    (∀ p ∈ update_price_history history tick timestamp window,
        timestamp - window ≤ p.time)
    ∧ (∀ p ∈ history, p.time < timestamp - window →
        p ∉ update_price_history history tick timestamp window) := by
  constructor
  · intro p hp
    have := List.of_mem_filter hp
    simpa using this
  · intro p _ hold hmem
    have := List.of_mem_filter hmem
    simp at this
    omega

/-- Witness for `price_history_window_invariant`: a fresh tick at time 100
survives a 10-minute window while the stale entry from time 0 is dropped. -/
theorem price_history_window_invariant_witness :
    (90 ≤ (100 : Int) - 10 →
      ({ time := 100, coin := "bitcoin", price := 2 } : PricePoint).time ≥ 100 - 10)
    ∧ ({ time := 0, coin := "bitcoin", price := 1 } : PricePoint) ∉
        update_price_history [{ time := 0, coin := "bitcoin", price := 1 }]
          [("bitcoin", 2)] 100 10 := by
  refine ⟨fun _ => ?_, ?_⟩
  · exact (price_history_window_invariant
      [{ time := 0, coin := "bitcoin", price := 1 }] [("bitcoin", 2)] 100 10).1
      { time := 100, coin := "bitcoin", price := 2 } (by decide)
  · exact (price_history_window_invariant
      [{ time := 0, coin := "bitcoin", price := 1 }] [("bitcoin", 2)] 100 10).2
      { time := 0, coin := "bitcoin", price := 1 } (by decide) (by decide)

/-! ## STEM_Network2.py / STEM_Network3.py: Excel edge-list loading -/

/-- A spreadsheet cell as pandas reads it: either a string, or a missing
value (float NaN). -/
inductive Cell where
  | str (s : String)
  | nan
deriving Repr, DecidableEq

/-- Python `str()` coercion, as applied by `.astype(str)`: a float NaN cell
renders as the literal string `"nan"`. -/
def pyStr : Cell → String
  | .str s => s
  | .nan => "nan"

/-- Python `str.strip()`: drop leading and trailing whitespace. Defined by
structural recursion on the character list so that concrete instances
evaluate inside the kernel. -/
def py_strip (s : String) : String :=
  ⟨((s.data.dropWhile Char.isWhitespace).reverse.dropWhile Char.isWhitespace).reverse⟩

/-- Python `str.lower()` (used by `case=False` tag matching). -/
def py_lower (s : String) : String :=
  ⟨s.data.map Char.toLower⟩

/-- `fillna("")` followed by `.astype(str)` (STEM_Network3.py lines 40-41):
NaN becomes the empty string, a string stays itself. -/
def fillna_empty (c : Cell) : String :=
  match c with
  | .str s => s
  | .nan => ""

/-- One raw spreadsheet row. Cells for columns absent from the table are
ignored by the loader (the corresponding `columns` entry is missing). -/
structure RawRow where
  fromCell : Cell
  toCell : Cell
  typeCell : Cell
  tagsCell : Cell
deriving Repr, DecidableEq

/-- The table `pd.read_excel` produces: its column names and its rows. -/
structure RawTable where
  columns : List String
  rows : List RawRow
deriving Repr, DecidableEq

/-- A cleaned edge row after loading. `From`/`To` are strings
(`astype(str).str.strip()` has been applied); `Type`/`Tags` stay cells since
STEM_Network2.py leaves them untouched when the column is present. -/
structure EdgeRow where
  fromId : String
  toId : String
  typeC : Cell
  tagsC : Cell
deriving Repr, DecidableEq

/-- The required-column check of both loaders:
`needed = {"From", "To"}; missing = needed - set(df.columns)`. -/
def missing_columns (columns : List String) : List String :=
  ["From", "To"].filter (fun c => !(columns.contains c))

/-- The `ValueError` message both loaders raise
(`f"Missing required columns: ... Found: ..."`), with the missing set and the
found column list interpolated as comma-separated names. -/
def missing_msg (missing : List String) (columns : List String) : String :=
  "Missing required columns: " ++ String.intercalate ", " missing ++
    ". Found: " ++ String.intercalate ", " columns

/-- Per-row cleaning of STEM_Network2.py lines 31-39: `From`/`To` go through
`astype(str).str.strip()`; `Type`/`Tags` are set to `""` when their column is
absent and otherwise kept as-is (possibly NaN). -/
def clean_row_v2 (columns : List String) (r : RawRow) : EdgeRow :=
  { fromId := py_strip (pyStr r.fromCell)
    toId := py_strip (pyStr r.toCell)
    typeC := if columns.contains "Type" then r.typeCell else .str ""
    tagsC := if columns.contains "Tags" then r.tagsCell else .str "" }

/-- Per-row cleaning of STEM_Network3.py lines 31-41: as in v2, but
`Type`/`Tags` additionally go through `fillna("").astype(str)`, so they are
always strings and NaN becomes `""`. -/
def clean_row_v3 (columns : List String) (r : RawRow) : EdgeRow :=
  { fromId := py_strip (pyStr r.fromCell)
    toId := py_strip (pyStr r.toCell)
    typeC := .str (if columns.contains "Type" then fillna_empty r.typeCell else "")
    tagsC := .str (if columns.contains "Tags" then fillna_empty r.tagsCell else "") }

/-- The endpoint filter shared by both loaders:
`df = df[(df["From"] != "") & (df["To"] != "")]`. -/
def keep_row (r : EdgeRow) : Bool :=
  !(r.fromId == "") && !(r.toId == "")

/-- The cleaned rows STEM_Network2.py's loader returns once the required
columns are present. -/
def clean_rows_v2 (t : RawTable) : List EdgeRow :=
  (t.rows.map (clean_row_v2 t.columns)).filter keep_row

/-- The cleaned rows STEM_Network3.py's loader returns once the required
columns are present. -/
def clean_rows_v3 (t : RawTable) : List EdgeRow :=
  (t.rows.map (clean_row_v3 t.columns)).filter keep_row

/-- `load_edges_from_excel_bytes` of STEM_Network2.py (lines 22-43): raise
`ValueError` naming the missing required columns, else clean the rows and
drop rows with an empty trimmed endpoint. -/
def load_edges_from_excel_bytes_v2 (t : RawTable) : Except String (List EdgeRow) :=
  if missing_columns t.columns ≠ [] then
    .error (missing_msg (missing_columns t.columns) t.columns)
  else
    .ok (clean_rows_v2 t)

/-- `load_edges_from_excel_bytes` of STEM_Network3.py (lines 23-45): same as
v2 except for the `fillna` treatment of `Type`/`Tags`. -/
def load_edges_from_excel_bytes_v3 (t : RawTable) : Except String (List EdgeRow) :=
  if missing_columns t.columns ≠ [] then
    .error (missing_msg (missing_columns t.columns) t.columns)
  else
    .ok (clean_rows_v3 t)

/-! ## Loader theorems -/

/-- An infix of `m` is an infix of `m ++ y`. -/
theorem isInfix_append_of_isInfix {α : Type} {l m : List α} (y : List α)
    (h : l <:+: m) : l <:+: m ++ y := by
  obtain ⟨s, u, rfl⟩ := h
  exact ⟨s, u ++ y, by simp⟩

/-- C3: a table whose columns miss `"From"` (or `"To"`) makes both loaders
fail with the `ValueError` message, and the message names the missing column
(its name occurs verbatim in the message text). An `.error` result means no
edge table is produced, so no graph or chart is built from it. -/
theorem load_missing_required_column (t : RawTable) (c : String)
    (hneed : c = "From" ∨ c = "To") (habs : c ∉ t.columns) :
    load_edges_from_excel_bytes_v2 t =
        .error (missing_msg (missing_columns t.columns) t.columns)
    ∧ load_edges_from_excel_bytes_v3 t =
        .error (missing_msg (missing_columns t.columns) t.columns)
    ∧ c.data <:+: (missing_msg (missing_columns t.columns) t.columns).data := by
  have hmem : c ∈ missing_columns t.columns := by
    rcases hneed with rfl | rfl <;> simp [missing_columns, habs]
  have hne : missing_columns t.columns ≠ [] := List.ne_nil_of_mem hmem
  refine ⟨by simp [load_edges_from_excel_bytes_v2, hne],
    by simp [load_edges_from_excel_bytes_v3, hne], ?_⟩
  rcases hneed with rfl | rfl
  · by_cases hTo : "To" ∈ t.columns
    · have hm : missing_columns t.columns = ["From"] := by
        simp [missing_columns, habs, hTo]
      rw [hm]
      unfold missing_msg
      rw [String.data_append]
      exact isInfix_append_of_isInfix _ (by decide)
    · have hm : missing_columns t.columns = ["From", "To"] := by
        simp [missing_columns, habs, hTo]
      rw [hm]
      unfold missing_msg
      rw [String.data_append]
      exact isInfix_append_of_isInfix _ (by decide)
  · by_cases hFrom : "From" ∈ t.columns
    · have hm : missing_columns t.columns = ["To"] := by
        simp [missing_columns, habs, hFrom]
      rw [hm]
      unfold missing_msg
      rw [String.data_append]
      exact isInfix_append_of_isInfix _ (by decide)
    · have hm : missing_columns t.columns = ["From", "To"] := by
        simp [missing_columns, habs, hFrom]
      rw [hm]
      unfold missing_msg
      rw [String.data_append]
      exact isInfix_append_of_isInfix _ (by decide)

/-- A concrete table with a `To` column but no `From` column. -/
def table_no_from : RawTable :=
  { columns := ["To", "Weight"], rows := [] }

/-- Witness for `load_missing_required_column` at `table_no_from`. -/
theorem load_missing_required_column_witness :
    (("From" : String) = "From" ∨ ("From" : String) = "To")
    ∧ "From" ∉ table_no_from.columns
    ∧ (load_edges_from_excel_bytes_v2 table_no_from =
          .error (missing_msg (missing_columns table_no_from.columns) table_no_from.columns)
      ∧ load_edges_from_excel_bytes_v3 table_no_from =
          .error (missing_msg (missing_columns table_no_from.columns) table_no_from.columns)
      ∧ ("From" : String).data <:+:
          (missing_msg (missing_columns table_no_from.columns) table_no_from.columns).data) :=
  ⟨Or.inl rfl, by decide,
    load_missing_required_column table_no_from "From" (Or.inl rfl) (by decide)⟩

/-- C4: every row of a successfully loaded table has non-empty trimmed
endpoints, and a record with an empty endpoint cannot appear in the load
result of either page. -/
theorem loaded_endpoints_nonempty (t : RawTable) (rows2 rows3 : List EdgeRow)
    (h2 : load_edges_from_excel_bytes_v2 t = .ok rows2)
    (h3 : load_edges_from_excel_bytes_v3 t = .ok rows3) :
    (∀ r ∈ rows2, r.fromId ≠ "" ∧ r.toId ≠ "")
    ∧ (∀ r ∈ rows3, r.fromId ≠ "" ∧ r.toId ≠ "")
    ∧ (∀ r : EdgeRow, r.fromId = "" ∨ r.toId = "" → r ∉ rows2 ∧ r ∉ rows3) := by
  have hrows2 : rows2 = clean_rows_v2 t := by
    unfold load_edges_from_excel_bytes_v2 at h2
    by_cases hm : missing_columns t.columns = []
    · simp [hm] at h2
      exact h2.symm
    · simp [hm] at h2
  have hrows3 : rows3 = clean_rows_v3 t := by
    unfold load_edges_from_excel_bytes_v3 at h3
    by_cases hm : missing_columns t.columns = []
    · simp [hm] at h3
      exact h3.symm
    · simp [hm] at h3
  subst hrows2 hrows3
  have main2 : ∀ r ∈ clean_rows_v2 t, r.fromId ≠ "" ∧ r.toId ≠ "" := by
    intro r hr
    have hk := List.of_mem_filter hr
    simpa [keep_row] using hk
  have main3 : ∀ r ∈ clean_rows_v3 t, r.fromId ≠ "" ∧ r.toId ≠ "" := by
    intro r hr
    have hk := List.of_mem_filter hr
    simpa [keep_row] using hk
  refine ⟨main2, main3, ?_⟩
  intro r hempty
  constructor
  · intro hmem
    rcases hempty with h | h
    · exact (main2 r hmem).1 h
    · exact (main2 r hmem).2 h
  · intro hmem
    rcases hempty with h | h
    · exact (main3 r hmem).1 h
    · exact (main3 r hmem).2 h

/-- A concrete valid table: one good row and one row whose `From` trims to
the empty string. -/
def table_with_blank_row : RawTable :=
  { columns := ["From", "To"],
    rows := [ { fromCell := .str " A ", toCell := .str "B",
                typeCell := .nan, tagsCell := .nan },
              { fromCell := .str "  ", toCell := .str "C",
                typeCell := .nan, tagsCell := .nan } ] }

/-- The load result of `table_with_blank_row` on both pages: the blank row is
dropped, the good row survives with trimmed endpoints. -/
def blank_row_loaded : List EdgeRow :=
  [ { fromId := "A", toId := "B", typeC := .str "", tagsC := .str "" } ]

/-- Witness for `loaded_endpoints_nonempty` at `table_with_blank_row`. -/
theorem loaded_endpoints_nonempty_witness :
    ({ fromId := "A", toId := "B", typeC := .str "", tagsC := .str "" } : EdgeRow).fromId ≠ ""
    ∧ ({ fromId := "A", toId := "B", typeC := .str "", tagsC := .str "" } : EdgeRow).toId ≠ "" :=
  (loaded_endpoints_nonempty table_with_blank_row blank_row_loaded blank_row_loaded
      rfl rfl).1 _ (by simp [blank_row_loaded])

/-! ## Building the networkx graph -/

/-- A stored edge with its `Type`/`Tags` attributes. -/
structure Edge where
  src : String
  dst : String
  etype : String
  etags : String
deriving Repr, DecidableEq

/-- A networkx `Graph`/`DiGraph`: an ordered node set and a stored edge list.
The node list never holds duplicates (networkx node sets are dictionaries);
`add_node` below keeps that invariant. -/
structure Graph where
  directed : Bool
  nodes : List String
  edges : List Edge
deriving Repr, DecidableEq

/-- networkx `add_node`: inserting an existing node is a no-op. This is also
exactly the guarded insert of STEM_Network2.py
(`if not G.has_node(frm): G.add_node(frm)`). -/
def add_node (G : Graph) (v : String) : Graph :=
  if v ∈ G.nodes then G else { G with nodes := G.nodes ++ [v] }

/-- Whether a stored edge has the key (u, v): exact match for a `DiGraph`,
either orientation for an undirected `Graph`. -/
def edge_key_matches (directed : Bool) (e : Edge) (u v : String) : Bool :=
  (e.src == u && e.dst == v) || (!directed && e.src == v && e.dst == u)

/-- The edge-dictionary part of networkx `add_edge`: overwrite the attributes
when the key already exists, append a new stored edge otherwise. -/
def update_or_append (G : Graph) (u v ty tg : String) : Graph :=
  if G.edges.any (fun e => edge_key_matches G.directed e u v) then
    { G with edges := G.edges.map (fun e =>
        if edge_key_matches G.directed e u v then { e with etype := ty, etags := tg } else e) }
  else
    { G with edges := G.edges ++ [{ src := u, dst := v, etype := ty, etags := tg }] }

/-- networkx `add_edge`: ensure both endpoints are nodes, then store the
edge with its attributes. -/
def add_edge (G : Graph) (u v ty tg : String) : Graph :=
  update_or_append (add_node (add_node G u) v) u v ty tg

/-- The fresh `nx.DiGraph()` / `nx.Graph()` of `build_graph`. -/
def empty_graph (directed : Bool) : Graph :=
  { directed := directed, nodes := [], edges := [] }

/-- One iteration of the `for _, r in edges_df.iterrows()` loop of
`build_graph` (both pages): re-strip the endpoints and the `Type`/`Tags`
attributes, add both endpoint nodes, add the edge. STEM_Network2.py guards
the node insertions with `has_node`; STEM_Network3.py calls `add_node`
unconditionally — with no node attributes the two are the same operation. -/
def build_step (G : Graph) (r : EdgeRow) : Graph :=
  add_edge (add_node (add_node G (py_strip r.fromId)) (py_strip r.toId))
    (py_strip r.fromId) (py_strip r.toId)
    (py_strip (pyStr r.typeC)) (py_strip (pyStr r.tagsC))

/-- `build_graph` (STEM_Network2.py lines 96-115, STEM_Network3.py lines
99-111): fold the loop body over the filtered edge table. -/
def build_graph (edges_df : List EdgeRow) (directed : Bool) : Graph :=
  edges_df.foldl build_step (empty_graph directed)

/-! ### Node-set lemmas -/

theorem mem_add_node {x v : String} (G : Graph) :
    x ∈ (add_node G v).nodes ↔ x ∈ G.nodes ∨ x = v := by
  unfold add_node
  by_cases h : v ∈ G.nodes
  · simp only [if_pos h]
    constructor
    · exact Or.inl
    · rintro (hx | rfl)
      · exact hx
      · exact h
  · simp [if_neg h]

theorem add_node_nodup {G : Graph} {v : String} (h : G.nodes.Nodup) :
    (add_node G v).nodes.Nodup := by
  unfold add_node
  by_cases hv : v ∈ G.nodes
  · simpa [if_pos hv] using h
  · simp [if_neg hv, List.nodup_append, h, hv]

theorem update_or_append_nodes (G : Graph) (u v ty tg : String) :
    (update_or_append G u v ty tg).nodes = G.nodes := by
  unfold update_or_append
  split <;> rfl

theorem mem_build_step {x : String} (G : Graph) (r : EdgeRow) :
    x ∈ (build_step G r).nodes ↔
      x ∈ G.nodes ∨ x = py_strip r.fromId ∨ x = py_strip r.toId := by
  unfold build_step add_edge
  rw [update_or_append_nodes]
  simp only [mem_add_node]
  tauto

theorem build_step_nodup {G : Graph} {r : EdgeRow} (h : G.nodes.Nodup) :
    (build_step G r).nodes.Nodup := by
  unfold build_step add_edge
  rw [update_or_append_nodes]
  exact add_node_nodup (add_node_nodup (add_node_nodup (add_node_nodup h)))

theorem build_foldl_nodup (rows : List EdgeRow) (G : Graph) (h : G.nodes.Nodup) :
    (rows.foldl build_step G).nodes.Nodup := by
  induction rows generalizing G with
  | nil => simpa using h
  | cons r rs ih => simpa using ih _ (build_step_nodup h)

theorem build_foldl_mem_mono {x : String} (rows : List EdgeRow) (G : Graph)
    (h : x ∈ G.nodes) : x ∈ (rows.foldl build_step G).nodes := by
  induction rows generalizing G with
  | nil => simpa using h
  | cons r rs ih => exact ih _ ((mem_build_step _ _).mpr (Or.inl h))

theorem build_foldl_mem_of_row {x : String} {r : EdgeRow} (rows : List EdgeRow)
    (G : Graph) (hx : x = py_strip r.fromId ∨ x = py_strip r.toId) :
    r ∈ rows → x ∈ (rows.foldl build_step G).nodes := by
  induction rows generalizing G with
  | nil => intro h; cases h
  | cons a as ih =>
    intro hr
    rcases List.mem_cons.mp hr with rfl | h
    · exact build_foldl_mem_mono as _ ((mem_build_step _ _).mpr (Or.inr hx))
    · exact ih _ h

/-- A node identifier is referenced by an edge table when some row has it as
a (stripped) `From` or `To` endpoint. -/
def referenced_node (rows : List EdgeRow) (v : String) : Prop :=
  ∃ r ∈ rows, v = py_strip r.fromId ∨ v = py_strip r.toId

/-- C5: every node referenced by a surviving edge row occurs in the built
graph's node set exactly once, for either directedness flag, no matter how
many rows reference it. -/
theorem build_graph_node_exactly_once (rows : List EdgeRow) (d : Bool) (v : String)
    (h : referenced_node rows v) :
    ((build_graph rows d).nodes).count v = 1 := by
  obtain ⟨r, hr, hv⟩ := h
  have hmem : v ∈ (build_graph rows d).nodes := build_foldl_mem_of_row rows _ hv hr
  have hnodup : (build_graph rows d).nodes.Nodup :=
    build_foldl_nodup rows _ (by simp [empty_graph])
  exact List.count_eq_one_of_mem hnodup hmem

/-- An edge table in which node `A` is referenced by two different rows. -/
def rows_double_ref : List EdgeRow :=
  [ { fromId := "A", toId := "B", typeC := .str "", tagsC := .str "" },
    { fromId := "A", toId := "C", typeC := .str "", tagsC := .str "" } ]

/-- Witness for `build_graph_node_exactly_once`: node `A` is referenced by
both rows of `rows_double_ref` yet appears exactly once. -/
theorem build_graph_node_exactly_once_witness :
    ((build_graph rows_double_ref true).nodes).count "A" = 1 :=
  build_graph_node_exactly_once rows_double_ref true "A"
    ⟨{ fromId := "A", toId := "B", typeC := .str "", tagsC := .str "" },
      by simp [rows_double_ref], Or.inl (by decide)⟩

/-- C9: a row whose `From` (or `To`) cell is NaN is not dropped by the
empty-endpoint filter: `astype(str)` coerces the missing value to the
literal `"nan"`, which is non-empty after stripping, so (provided the other
endpoint is non-blank) the row survives both pages' loaders and the built
graph acquires a node named `"nan"`. -/
theorem nan_endpoint_survives (t : RawTable) (r : RawRow)
    (hFrom : "From" ∈ t.columns) (hTo : "To" ∈ t.columns) (hr : r ∈ t.rows)
    (hnan : r.fromCell = Cell.nan ∨ r.toCell = Cell.nan)
    (hne1 : py_strip (pyStr r.fromCell) ≠ "")
    (hne2 : py_strip (pyStr r.toCell) ≠ "") :
    load_edges_from_excel_bytes_v2 t = .ok (clean_rows_v2 t)
    ∧ load_edges_from_excel_bytes_v3 t = .ok (clean_rows_v3 t)
    ∧ clean_row_v2 t.columns r ∈ clean_rows_v2 t
    ∧ clean_row_v3 t.columns r ∈ clean_rows_v3 t
    ∧ (r.fromCell = Cell.nan →
        (clean_row_v2 t.columns r).fromId = "nan"
        ∧ (clean_row_v3 t.columns r).fromId = "nan")
    ∧ (r.toCell = Cell.nan →
        (clean_row_v2 t.columns r).toId = "nan"
        ∧ (clean_row_v3 t.columns r).toId = "nan")
    ∧ (∀ d : Bool, "nan" ∈ (build_graph (clean_rows_v2 t) d).nodes
        ∧ "nan" ∈ (build_graph (clean_rows_v3 t) d).nodes) := by
  have hmiss : missing_columns t.columns = [] := by
    simp [missing_columns, hFrom, hTo]
  have hkeep2 : keep_row (clean_row_v2 t.columns r) = true := by
    simp [keep_row, clean_row_v2, hne1, hne2]
  have hkeep3 : keep_row (clean_row_v3 t.columns r) = true := by
    simp [keep_row, clean_row_v3, hne1, hne2]
  have hmem2 : clean_row_v2 t.columns r ∈ clean_rows_v2 t :=
    List.mem_filter.mpr ⟨List.mem_map_of_mem _ hr, hkeep2⟩
  have hmem3 : clean_row_v3 t.columns r ∈ clean_rows_v3 t :=
    List.mem_filter.mpr ⟨List.mem_map_of_mem _ hr, hkeep3⟩
  refine ⟨by simp [load_edges_from_excel_bytes_v2, hmiss],
    by simp [load_edges_from_excel_bytes_v3, hmiss], hmem2, hmem3, ?_, ?_, ?_⟩
  · intro h
    constructor <;> simp [clean_row_v2, clean_row_v3, h, pyStr, py_strip]
  · intro h
    constructor <;> simp [clean_row_v2, clean_row_v3, h, pyStr, py_strip]
  · intro d
    rcases hnan with h | h
    · have e2 : "nan" = py_strip (clean_row_v2 t.columns r).fromId := by
        simp [clean_row_v2, h, pyStr, py_strip]
      have e3 : "nan" = py_strip (clean_row_v3 t.columns r).fromId := by
        simp [clean_row_v3, h, pyStr, py_strip]
      exact ⟨build_foldl_mem_of_row _ _ (Or.inl e2) hmem2,
        build_foldl_mem_of_row _ _ (Or.inl e3) hmem3⟩
    · have e2 : "nan" = py_strip (clean_row_v2 t.columns r).toId := by
        simp [clean_row_v2, h, pyStr, py_strip]
      have e3 : "nan" = py_strip (clean_row_v3 t.columns r).toId := by
        simp [clean_row_v3, h, pyStr, py_strip]
      exact ⟨build_foldl_mem_of_row _ _ (Or.inr e2) hmem2,
        build_foldl_mem_of_row _ _ (Or.inr e3) hmem3⟩

/-- A table whose single row has a missing (NaN) `From` cell. -/
def table_nan : RawTable :=
  { columns := ["From", "To"],
    rows := [ { fromCell := .nan, toCell := .str "B",
                typeCell := .nan, tagsCell := .nan } ] }

/-- Witness for `nan_endpoint_survives` at `table_nan`: the directed graph
built from the loaded table contains a node named `"nan"`. -/
theorem nan_endpoint_survives_witness :
    "From" ∈ table_nan.columns ∧ "To" ∈ table_nan.columns
    ∧ "nan" ∈ (build_graph (clean_rows_v2 table_nan) true).nodes :=
  ⟨by decide, by decide,
    ((nan_endpoint_survives table_nan
        { fromCell := .nan, toCell := .str "B", typeCell := .nan, tagsCell := .nan }
        (by decide) (by decide) (by simp [table_nan]) (Or.inl rfl)
        (by decide) (by decide)).2.2.2.2.2.2 true).1⟩

/-! ## The sidebar filter block (STEM_Network2.py lines 82-91,
STEM_Network3.py lines 85-94) -/

/-- Python `needle.lower() in hay.lower()`, the effect of
`.str.contains(tag, case=False)` for a literal tag. -/
def py_contains_ci (hay needle : String) : Bool :=
  decide ((py_lower needle).data <:+: (py_lower hay).data)

/-- `if selected_types: filtered = filtered[filtered["Type"].astype(str).isin(selected_types)]`. -/
def type_filtered (selected_types : List String) (df : List EdgeRow) : List EdgeRow :=
  if selected_types.isEmpty then df
  else df.filter (fun r => selected_types.contains (pyStr r.typeC))

/-- `if tag_text.strip(): filtered = filtered[filtered["Tags"].astype(str).str.contains(tag_text.strip(), case=False, na=False)]`. -/
def tag_filtered (tag_text : String) (df : List EdgeRow) : List EdgeRow :=
  if py_strip tag_text == "" then df
  else df.filter (fun r => py_contains_ci (pyStr r.tagsC) (py_strip tag_text))

/-- `if len(filtered) > max_edges: filtered = filtered.head(max_edges)`. -/
def cap_edges (max_edges : Nat) (df : List EdgeRow) : List EdgeRow :=
  if max_edges < df.length then df.take max_edges else df

/-- The whole filter block applied to the loaded table. -/
def apply_filters (selected_types : List String) (tag_text : String)
    (max_edges : Nat) (df : List EdgeRow) : List EdgeRow :=
  cap_edges max_edges (tag_filtered tag_text (type_filtered selected_types df))

theorem type_filtered_subset (s : List String) (df : List EdgeRow) :
    type_filtered s df ⊆ df := by
  unfold type_filtered
  split
  · exact fun _ h => h
  · exact List.filter_subset' _

theorem tag_filtered_subset (tg : String) (df : List EdgeRow) :
    tag_filtered tg df ⊆ df := by
  unfold tag_filtered
  split
  · exact fun _ h => h
  · exact List.filter_subset' _

theorem cap_edges_subset (m : Nat) (df : List EdgeRow) : cap_edges m df ⊆ df := by
  unfold cap_edges
  split
  · exact List.take_subset _ _
  · exact fun _ h => h

theorem cap_edges_length_le (m : Nat) (df : List EdgeRow) :
    (cap_edges m df).length ≤ m ∨ cap_edges m df = df := by
  unfold cap_edges
  by_cases h : m < df.length
  · left
    simp [h, List.length_take]
  · right
    simp [h]

/-- C7: re-applying the filter block with identical parameters to its own
output returns that output unchanged. -/
theorem apply_filters_idempotent (selected_types : List String) (tag_text : String)
    (max_edges : Nat) (df : List EdgeRow) :
    apply_filters selected_types tag_text max_edges
        (apply_filters selected_types tag_text max_edges df) =
      apply_filters selected_types tag_text max_edges df := by
  unfold apply_filters
  set x := tag_filtered tag_text (type_filtered selected_types df) with hx
  have hsub : cap_edges max_edges x ⊆ x := cap_edges_subset _ _
  have h1 : type_filtered selected_types (cap_edges max_edges x) = cap_edges max_edges x := by
    unfold type_filtered
    by_cases he : selected_types.isEmpty
    · simp [he]
    · rw [if_neg he]
      apply List.filter_eq_self.mpr
      intro r hr
      have hrx : r ∈ type_filtered selected_types df :=
        tag_filtered_subset _ _ (hsub hr)
      unfold type_filtered at hrx
      rw [if_neg he] at hrx
      exact (List.mem_filter.mp hrx).2
  have h2 : tag_filtered tag_text (cap_edges max_edges x) = cap_edges max_edges x := by
    unfold tag_filtered
    by_cases he : py_strip tag_text == ""
    · simp [he]
    · rw [if_neg he]
      apply List.filter_eq_self.mpr
      intro r hr
      have hrx : r ∈ x := hsub hr
      rw [hx] at hrx
      unfold tag_filtered at hrx
      rw [if_neg he] at hrx
      exact (List.mem_filter.mp hrx).2
  rw [h1, h2]
  unfold cap_edges
  by_cases hc : max_edges < x.length
  · rw [if_pos hc]
    have hlen : (x.take max_edges).length = max_edges := by
      simp [List.length_take, Nat.min_eq_left (Nat.le_of_lt hc)]
    rw [if_neg (by rw [hlen]; exact Nat.lt_irrefl _)]
  · rw [if_neg hc, if_neg hc]

/-! ## Measures and communities -/

/-- `H.to_undirected()`: keep all nodes, re-insert every stored edge into an
undirected graph (reciprocal directed edges collapse into one undirected
edge, later attributes overwriting earlier ones). -/
def to_undirected (G : Graph) : Graph :=
  G.edges.foldl (fun H e => add_edge H e.src e.dst e.etype e.etags)
    { directed := false, nodes := G.nodes, edges := [] }

/-- Undirected networkx degree: each incident edge counts once, a self-loop
twice. -/
def nx_degree (G : Graph) (n : String) : Nat :=
  (G.edges.filter (fun e => e.src == n || e.dst == n)).length
    + (G.edges.filter (fun e => e.src == n && e.dst == n)).length

/-- `compute_measures_and_communities` (STEM_Network3.py lines 154-203),
parameterized by the three networkx algorithms it delegates to
(betweenness centrality, closeness centrality, community detection — the
greedy-modularity call with its label-propagation import fallback). Returns
(degree table, betweenness table, closeness table, communities). An empty
graph short-circuits to empty results; a zero-edge graph substitutes
zero-valued centralities; fewer than 2 nodes or fewer than 1 edge
substitutes the single all-node community. -/
def compute_measures_and_communities
    (lib_betweenness lib_closeness : Graph → List (String × Rat))
    (lib_greedy : Graph → List (List String))
    (graph_for_analysis : Graph) :
    List (String × Nat) × List (String × Rat) × List (String × Rat) × List (List String) :=
  let Hu := to_undirected graph_for_analysis
  if Hu.nodes.length = 0 then ([], [], [], [])
  else
    let deg := Hu.nodes.map (fun n => (n, nx_degree Hu n))
    let between := if 0 < Hu.edges.length then lib_betweenness Hu
      else Hu.nodes.map (fun n => (n, (0 : Rat)))
    let close := if 0 < Hu.edges.length then lib_closeness Hu
      else Hu.nodes.map (fun n => (n, (0 : Rat)))
    let communities := if Hu.nodes.length < 2 || Hu.edges.length < 1
      then [Hu.nodes] else lib_greedy Hu
    (deg, between, close, communities)

/-- The module-level measures block of STEM_Network2.py (lines 165-177): it
computes betweenness and closeness by direct library calls with no
pathological-input guard, and then evaluates
`list(greedy_modularity_communities(H_undirected))` — but STEM_Network2.py
never imports `greedy_modularity_communities` (its imports are os, io,
pandas, networkx as nx, streamlit, pyvis, components), so by Python name
resolution reaching that line raises `NameError` for every input graph.
The result is therefore always the raised error. -/
def network2_communities
    (lib_betweenness lib_closeness : Graph → List (String × Rat))
    (H : Graph) : Except String (List (List String)) :=
  let Hu := to_undirected H
  let _between := lib_betweenness Hu
  let _close := lib_closeness Hu
  .error "NameError: name greedy_modularity_communities is not defined"

/-- The all-zero centrality table networkx returns on a zero-edge graph;
used to instantiate the library parameters at concrete inputs. -/
def lib_zero (G : Graph) : List (String × Rat) :=
  G.nodes.map (fun n => (n, 0))

/-- The trivial community structure, for instantiating `lib_greedy`. -/
def lib_triv (G : Graph) : List (List String) :=
  [G.nodes]

/-- A pathological input: a single node, no edges. -/
def one_node_graph : Graph :=
  { directed := true, nodes := ["A"], edges := [] }

/-- C6 counterexample: on STEM_Network2.py the claim fails — at the
pathological single-node graph the module-level community computation raises
(`greedy_modularity_communities` is not imported there) instead of
substituting the degenerate default `[["A"]]`. -/
theorem stem_network2_pathological_raises :
    network2_communities lib_zero lib_zero one_node_graph =
      .error "NameError: name greedy_modularity_communities is not defined"
    ∧ network2_communities lib_zero lib_zero one_node_graph ≠ .ok [["A"]] := by
  exact ⟨rfl, by simp [network2_communities]⟩

/-- C6 (amended): STEM_Network3.py's `compute_measures_and_communities` does
substitute the degenerate defaults: for every non-empty zero-edge input
graph (which covers the single-node case) it returns zero-valued
betweenness and closeness for every node and the single trivial community
holding all nodes, without invoking any library algorithm. -/
theorem stem_network3_zero_edge_defaults
    (lb lc : Graph → List (String × Rat)) (lg : Graph → List (List String))
    (G : Graph) (hn : G.nodes ≠ []) (he : G.edges = []) :
    compute_measures_and_communities lb lc lg G =
      (G.nodes.map (fun n => (n, (0 : Nat))),
       G.nodes.map (fun n => (n, (0 : Rat))),
       G.nodes.map (fun n => (n, (0 : Rat))),
       [G.nodes]) := by
  have hu : to_undirected G = { directed := false, nodes := G.nodes, edges := [] } := by
    simp [to_undirected, he]
  unfold compute_measures_and_communities
  rw [hu]
  simp [hn, nx_degree]

/-- Witness for `stem_network3_zero_edge_defaults` at the single-node
graph. -/
theorem stem_network3_zero_edge_defaults_witness :
    one_node_graph.nodes ≠ [] ∧ one_node_graph.edges = []
    ∧ compute_measures_and_communities lib_zero lib_zero lib_triv one_node_graph =
        ([("A", 0)], [("A", 0)], [("A", 0)], [["A"]]) := by
  refine ⟨by decide, rfl, ?_⟩
  rw [stem_network3_zero_edge_defaults lib_zero lib_zero lib_triv one_node_graph
    (by decide) rfl]
  rfl

/-! ## The directed focus-neighborhood expansion
(STEM_Network2.py lines 141-156, STEM_Network3.py lines 133-147) -/

/-- networkx `G.successors(n)` on a `DiGraph`. -/
def successors (G : Graph) (n : String) : List String :=
  (G.edges.filter (fun e => e.src == n)).map (fun e => e.dst)

/-- networkx `G.predecessors(n)` on a `DiGraph`. -/
def predecessors (G : Graph) (n : String) : List String :=
  (G.edges.filter (fun e => e.dst == n)).map (fun e => e.src)

/-- Python set union `a |= b` on node sets represented as duplicate-free
insertion-ordered lists. -/
def set_union (a b : List String) : List String :=
  a ++ b.filter (fun x => !(a.contains x))

/-- One iteration of the hop loop: `new_frontier = set(); for n in frontier:
new_frontier |= set(G.predecessors(n)); new_frontier |= set(G.successors(n))`. -/
def step_frontier (G : Graph) (frontier : List String) : List String :=
  frontier.foldl
    (fun acc n => set_union (set_union acc (predecessors G n)) (successors G n)) []

/-- The `for _ in range(ego_hops)` loop of the directed branch, returning
(`nbrs`, `frontier`) after `k` iterations; both start as `{focus_node}`. -/
def ego_loop (G : Graph) (focus : String) : Nat → List String × List String
  | 0 => ([focus], [focus])
  | k + 1 =>
    (set_union (ego_loop G focus k).1 (step_frontier G (ego_loop G focus k).2),
      step_frontier G (ego_loop G focus k).2)

/-- `H = G.subgraph(nbrs).copy()`: the subgraph induced on `nbrs` — the
nodes of `G` lying in `nbrs` and the stored edges with both endpoints in
`nbrs`. -/
def ego_subgraph (G : Graph) (focus : String) (hops : Nat) : Graph :=
  { directed := G.directed
    nodes := G.nodes.filter (fun n => ((ego_loop G focus hops).1).contains n)
    edges := G.edges.filter (fun e =>
      ((ego_loop G focus hops).1).contains e.src
        && ((ego_loop G focus hops).1).contains e.dst) }

/-- Undirected adjacency on the stored edge set: some edge joins `u` and `v`
in either orientation. -/
def undirected_adj (G : Graph) (u v : String) : Prop :=
  ∃ e ∈ G.edges, (e.src = u ∧ e.dst = v) ∨ (e.src = v ∧ e.dst = u)

/-- A walk of a given length along edges taken in either direction;
`∃ n ≤ k` such a walk is exactly "undirected distance ≤ k". -/
inductive UndirectedWalk (G : Graph) : String → String → Nat → Prop where
  | nil (v : String) : UndirectedWalk G v v 0
  | cons {u w v : String} {n : Nat} :
      undirected_adj G u w → UndirectedWalk G w v n → UndirectedWalk G u v (n + 1)

theorem mem_set_union {x : String} (a b : List String) :
    x ∈ set_union a b ↔ x ∈ a ∨ x ∈ b := by
  unfold set_union
  constructor
  · intro h
    rcases List.mem_append.mp h with h | h
    · exact Or.inl h
    · exact Or.inr (List.mem_filter.mp h).1
  · intro h
    by_cases ha : x ∈ a
    · exact List.mem_append.mpr (Or.inl ha)
    · rcases h with h | h
      · exact absurd h ha
      · refine List.mem_append.mpr (Or.inr (List.mem_filter.mpr ⟨h, ?_⟩))
        simpa using ha

theorem mem_predecessors {G : Graph} {n v : String} :
    v ∈ predecessors G n ↔ ∃ e ∈ G.edges, e.src = v ∧ e.dst = n := by
  unfold predecessors
  simp only [List.mem_map, List.mem_filter, beq_iff_eq]
  constructor
  · rintro ⟨e, ⟨he, hd⟩, hs⟩
    exact ⟨e, he, hs, hd⟩
  · rintro ⟨e, he, hs, hd⟩
    exact ⟨e, ⟨he, hd⟩, hs⟩

theorem mem_successors {G : Graph} {n v : String} :
    v ∈ successors G n ↔ ∃ e ∈ G.edges, e.src = n ∧ e.dst = v := by
  unfold successors
  simp only [List.mem_map, List.mem_filter, beq_iff_eq]
  constructor
  · rintro ⟨e, ⟨he, hs⟩, hd⟩
    exact ⟨e, he, hs, hd⟩
  · rintro ⟨e, he, hs, hd⟩
    exact ⟨e, ⟨he, hs⟩, hd⟩

theorem mem_pred_or_succ_iff_adj {G : Graph} {n v : String} :
    (v ∈ predecessors G n ∨ v ∈ successors G n) ↔ undirected_adj G n v := by
  unfold undirected_adj
  rw [mem_predecessors, mem_successors]
  constructor
  · rintro (⟨e, he, hs, hd⟩ | ⟨e, he, hs, hd⟩)
    · exact ⟨e, he, Or.inr ⟨hs, hd⟩⟩
    · exact ⟨e, he, Or.inl ⟨hs, hd⟩⟩
  · rintro ⟨e, he, ⟨hs, hd⟩ | ⟨hs, hd⟩⟩
    · exact Or.inr ⟨e, he, hs, hd⟩
    · exact Or.inl ⟨e, he, hs, hd⟩

theorem mem_step_frontier_aux (G : Graph) (l : List String) (init : List String)
    (x : String) :
    x ∈ l.foldl
        (fun acc n => set_union (set_union acc (predecessors G n)) (successors G n)) init
      ↔ x ∈ init ∨ ∃ n ∈ l, undirected_adj G n x := by
  induction l generalizing init with
  | nil => simp
  | cons a as ih =>
    simp only [List.foldl_cons]
    rw [ih]
    have hmem : x ∈ set_union (set_union init (predecessors G a)) (successors G a)
        ↔ x ∈ init ∨ undirected_adj G a x := by
      rw [mem_set_union, mem_set_union, or_assoc]
      exact or_congr_right mem_pred_or_succ_iff_adj
    rw [hmem]
    constructor
    · rintro ((h | h) | ⟨n, hn, hadj⟩)
      · exact Or.inl h
      · exact Or.inr ⟨a, List.mem_cons_self a as, h⟩
      · exact Or.inr ⟨n, List.mem_cons_of_mem a hn, hadj⟩
    · rintro (h | ⟨n, hn, hadj⟩)
      · exact Or.inl (Or.inl h)
      · rcases List.mem_cons.mp hn with rfl | hn
        · exact Or.inl (Or.inr hadj)
        · exact Or.inr ⟨n, hn, hadj⟩

theorem mem_step_frontier {G : Graph} {frontier : List String} {x : String} :
    x ∈ step_frontier G frontier ↔ ∃ n ∈ frontier, undirected_adj G n x := by
  unfold step_frontier
  rw [mem_step_frontier_aux]
  simp

theorem UndirectedWalk.snoc {G : Graph} {a b c : String} {n : Nat}
    (w : UndirectedWalk G a b n) (h : undirected_adj G b c) :
    UndirectedWalk G a c (n + 1) := by
  induction w with
  | nil v => exact .cons h (.nil c)
  | cons hadj _ ih => exact .cons hadj (ih h)

theorem walk_unsnoc {G : Graph} : ∀ {k : Nat} {a v : String},
    UndirectedWalk G a v (k + 1) →
      ∃ u, UndirectedWalk G a u k ∧ undirected_adj G u v := by
  intro k
  induction k with
  | zero =>
    intro a v w
    cases w with
    | cons hadj wtail =>
      cases wtail
      exact ⟨a, .nil a, hadj⟩
  | succ j ih =>
    intro a v w
    cases w with
    | cons hadj wtail =>
      obtain ⟨u, wu, hu⟩ := ih wtail
      exact ⟨u, .cons hadj wu, hu⟩

theorem frontier_iff_walk (G : Graph) (f : String) (k : Nat) (v : String) :
    v ∈ (ego_loop G f k).2 ↔ UndirectedWalk G f v k := by
  induction k generalizing v with
  | zero =>
    simp only [ego_loop, List.mem_singleton]
    constructor
    · rintro rfl
      exact .nil _
    · intro w
      cases w
      rfl
  | succ j ih =>
    simp only [ego_loop]
    rw [mem_step_frontier]
    constructor
    · rintro ⟨u, hu, hadj⟩
      exact ((ih u).mp hu).snoc hadj
    · intro w
      obtain ⟨u, wu, hadj⟩ := walk_unsnoc w
      exact ⟨u, (ih u).mpr wu, hadj⟩

theorem nbrs_iff_walk_le (G : Graph) (f : String) (k : Nat) (v : String) :
    v ∈ (ego_loop G f k).1 ↔ ∃ n, n ≤ k ∧ UndirectedWalk G f v n := by
  induction k generalizing v with
  | zero =>
    simp only [ego_loop, List.mem_singleton]
    constructor
    · rintro rfl
      exact ⟨0, Nat.le_refl 0, .nil _⟩
    · rintro ⟨n, hn, w⟩
      have : n = 0 := Nat.le_zero.mp hn
      subst this
      cases w
      rfl
  | succ j ih =>
    have hfr := frontier_iff_walk G f (j + 1) v
    simp only [ego_loop] at hfr ⊢
    rw [mem_set_union]
    constructor
    · rintro (h | h)
      · obtain ⟨n, hn, w⟩ := (ih v).mp h
        exact ⟨n, Nat.le_succ_of_le hn, w⟩
      · exact ⟨j + 1, Nat.le_refl _, hfr.mp h⟩
    · rintro ⟨n, hn, w⟩
      rcases Nat.lt_or_ge n (j + 1) with hlt | hge
      · exact Or.inl ((ih v).mpr ⟨n, Nat.lt_succ_iff.mp hlt, w⟩)
      · have : n = j + 1 := Nat.le_antisymm hn hge
        subst this
        exact Or.inr (hfr.mpr w)

/-- Every stored edge's endpoints are nodes (true of every graph
`build_graph` produces, and of every networkx graph). -/
def well_formed (G : Graph) : Prop :=
  ∀ e ∈ G.edges, e.src ∈ G.nodes ∧ e.dst ∈ G.nodes

instance well_formed_decidable (G : Graph) : Decidable (well_formed G) :=
  inferInstanceAs (Decidable (∀ e ∈ G.edges, e.src ∈ G.nodes ∧ e.dst ∈ G.nodes))

theorem walk_end_mem_nodes {G : Graph} (hwf : well_formed G) :
    ∀ {a v : String} {n : Nat},
      UndirectedWalk G a v n → a ∈ G.nodes → v ∈ G.nodes := by
  intro a v n w
  induction w with
  | nil u => exact fun h => h
  | cons hadj wtail ih =>
    intro _
    apply ih
    obtain ⟨e, he, h⟩ := hadj
    rcases h with ⟨h1, h2⟩ | ⟨h1, h2⟩
    · exact h2 ▸ (hwf e he).2
    · exact h1 ▸ (hwf e he).1

/-- C10: for a directed graph, the focus-neighborhood subgraph built by the
code contains exactly the nodes whose undirected distance from the focus is
at most the hop count — predecessors and successors are both followed, so
edge direction is ignored. -/
theorem ego_subgraph_nodes_iff (G : Graph) (focus : String) (hops : Nat)
    (v : String) (hk : 1 ≤ hops) (hf : focus ∈ G.nodes) (hwf : well_formed G) :
    v ∈ (ego_subgraph G focus hops).nodes ↔
      ∃ n, n ≤ hops ∧ UndirectedWalk G focus v n := by
  unfold ego_subgraph
  constructor
  · intro h
    have h2 := (List.mem_filter.mp h).2
    have hv : v ∈ (ego_loop G focus hops).1 := by simpa using h2
    exact (nbrs_iff_walk_le G focus hops v).mp hv
  · intro h
    refine List.mem_filter.mpr ⟨?_, ?_⟩
    · obtain ⟨n, hn, w⟩ := h
      exact walk_end_mem_nodes hwf w hf
    · simpa using (nbrs_iff_walk_le G focus hops v).mpr h

/-- A directed demo graph with edges A→B and C→B: from focus A, node C is
only reachable by traversing C→B backwards. -/
def ego_demo_graph : Graph :=
  build_graph
    [ { fromId := "A", toId := "B", typeC := .str "", tagsC := .str "" },
      { fromId := "C", toId := "B", typeC := .str "", tagsC := .str "" } ] true

/-- Witness for `ego_subgraph_nodes_iff` on `ego_demo_graph` with 2 hops:
the against-the-arrows node C satisfies the characterization. -/
theorem ego_subgraph_nodes_iff_witness :
    (1 ≤ 2 ∧ "A" ∈ ego_demo_graph.nodes ∧ well_formed ego_demo_graph)
    ∧ ("C" ∈ (ego_subgraph ego_demo_graph "A" 2).nodes ↔
        ∃ n, n ≤ 2 ∧ UndirectedWalk ego_demo_graph "A" "C" n) :=
  ⟨⟨by decide, by decide, by decide⟩,
    ego_subgraph_nodes_iff ego_demo_graph "A" 2 "C" (by decide) (by decide) (by decide)⟩

end CS39AE
